import Mathlib

/-! Verification of the Excel data manager script (github_streamlit.py).

The script manages two spreadsheet-backed tables (students, college_admin_data)
through whole-file read-modify-write operations.  This file gives a shallow
embedding of its data-handling functions: string normalisation as used by
pandas `.str.strip().str.lower()`, tables of cells, `get_table_data`,
`check_pk_exists`, `update_table`, `delete_record`, the save path of
`display_data_editor`, and the students branch of `add_new_record_form`. -/

namespace ExcelApp

/-- Whitespace test used by the model of Python str.strip (common ASCII whitespace). -/
def isSpace (c : Char) : Bool := c == ' ' || c == '\t' || c == '\n' || c == '\r'

/-- Model of Python str.lower on a single character (ASCII letters). -/
def lowerChar (c : Char) : Char :=
  if 65 ≤ c.toNat ∧ c.toNat ≤ 90 then Char.ofNat (c.toNat + 32) else c

lemma toNat_ofNat_valid (n : Nat) (h : n.isValidChar) : (Char.ofNat n).toNat = n := by
  rw [Char.ofNat, dif_pos h]
  rfl

lemma valid_shift {n : Nat} (h1 : 65 ≤ n) (h2 : n ≤ 90) : (n + 32).isValidChar := by
  exact Or.inl (by omega)

lemma toNat_lowerChar_of_upper {c : Char} (h1 : 65 ≤ c.toNat) (h2 : c.toNat ≤ 90) :
    (lowerChar c).toNat = c.toNat + 32 := by
  unfold lowerChar
  rw [if_pos ⟨h1, h2⟩]
  exact toNat_ofNat_valid _ (valid_shift h1 h2)

lemma lowerChar_of_not_upper {d : Char} (h : ¬(65 ≤ d.toNat ∧ d.toNat ≤ 90)) :
    lowerChar d = d := by
  unfold lowerChar
  exact if_neg h

lemma lowerChar_lowerChar (c : Char) : lowerChar (lowerChar c) = lowerChar c := by
  by_cases h : 65 ≤ c.toNat ∧ c.toNat ≤ 90
  · have ht : (lowerChar c).toNat = c.toNat + 32 := toNat_lowerChar_of_upper h.1 h.2
    exact lowerChar_of_not_upper (by rw [ht]; omega)
  · simp [lowerChar_of_not_upper h]

lemma ne_of_toNat_ne {c d : Char} (h : c.toNat ≠ d.toNat) : c ≠ d := by
  intro he; exact h (congrArg Char.toNat he)

lemma isSpace_of_toNat (c : Char) (h : c.toNat ≠ 32 ∧ c.toNat ≠ 9 ∧ c.toNat ≠ 10 ∧ c.toNat ≠ 13) :
    isSpace c = false := by
  unfold isSpace
  have h1 : (c == ' ') = false := beq_eq_false_iff_ne.mpr (ne_of_toNat_ne (by exact h.1))
  have h2 : (c == '\t') = false := beq_eq_false_iff_ne.mpr (ne_of_toNat_ne (by exact h.2.1))
  have h3 : (c == '\n') = false := beq_eq_false_iff_ne.mpr (ne_of_toNat_ne (by exact h.2.2.1))
  have h4 : (c == '\r') = false := beq_eq_false_iff_ne.mpr (ne_of_toNat_ne (by exact h.2.2.2))
  rw [h1, h2, h3, h4]
  rfl

lemma isSpace_lowerChar (c : Char) : isSpace (lowerChar c) = isSpace c := by
  by_cases h : 65 ≤ c.toNat ∧ c.toNat ≤ 90
  · have ht : (lowerChar c).toNat = c.toNat + 32 := toNat_lowerChar_of_upper h.1 h.2
    rw [isSpace_of_toNat (lowerChar c) (by rw [ht]; omega),
        isSpace_of_toNat c (by omega)]
  · rw [lowerChar_of_not_upper h]

/-- Model of Python str.strip over the character list: drop leading and
trailing whitespace. -/
def stripChars (l : List Char) : List Char :=
  ((l.dropWhile isSpace).reverse.dropWhile isSpace).reverse

/-- Model of Python str.strip. -/
def strip (s : String) : String := ⟨stripChars s.data⟩

/-- Model of Python str.lower. -/
def lower (s : String) : String := ⟨s.data.map lowerChar⟩

/-- Column-name normalisation used throughout the script:
`df.columns.str.strip().str.lower()`. -/
def normCol (s : String) : String := lower (strip s)

lemma dropWhile_head_not {α} (p : α → Bool) :
    ∀ (l : List α) (x : α), (l.dropWhile p).head? = some x → p x = false := by
  intro l
  induction l with
  | nil => intro x h; simp [List.dropWhile] at h
  | cons a as ih =>
    intro x h
    rw [List.dropWhile_cons] at h
    by_cases hp : p a
    · rw [if_pos hp] at h
      exact ih x h
    · rw [if_neg hp] at h
      simp only [List.head?_cons, Option.some.injEq] at h
      subst h
      simpa using hp

lemma dropWhile_eq_self_of_head {α} (p : α → Bool) (l : List α)
    (h : ∀ x, l.head? = some x → p x = false) : l.dropWhile p = l := by
  cases l with
  | nil => rfl
  | cons a as =>
    have := h a rfl
    rw [List.dropWhile_cons, this]
    simp

lemma getLast?_dropWhile {α} (p : α → Bool) :
    ∀ (l : List α), l.dropWhile p ≠ [] → (l.dropWhile p).getLast? = l.getLast? := by
  intro l
  induction l with
  | nil => intro h; simp [List.dropWhile] at h
  | cons a as ih =>
    intro h
    rw [List.dropWhile_cons]
    rw [List.dropWhile_cons] at h
    by_cases hp : p a
    · simp only [hp, if_true] at h ⊢
      have has : as ≠ [] := by
        intro he; subst he; simp [List.dropWhile] at h
      rw [ih h]
      cases as with
      | nil => exact absurd rfl has
      | cons b bs => simp [List.getLast?_cons_cons]
    · simp [hp]

lemma stripChars_idem (l : List Char) : stripChars (stripChars l) = stripChars l := by
  unfold stripChars
  set A := l.dropWhile isSpace with hA
  set B := A.reverse.dropWhile isSpace with hB
  -- Step 1: dropWhile isSpace B.reverse = B.reverse
  have h1 : B.reverse.dropWhile isSpace = B.reverse := by
    apply dropWhile_eq_self_of_head
    intro x hx
    rw [List.head?_reverse] at hx
    have hBne : B ≠ [] := by
      intro he; rw [he] at hx; simp at hx
    rw [hB, getLast?_dropWhile _ _ (hB ▸ hBne), List.getLast?_reverse] at hx
    exact dropWhile_head_not _ _ _ (hA ▸ hx)
  rw [h1, List.reverse_reverse]
  -- Step 2: dropWhile isSpace B = B
  have h2 : B.dropWhile isSpace = B := by
    apply dropWhile_eq_self_of_head
    intro x hx
    exact dropWhile_head_not _ _ _ (hB ▸ hx)
  rw [h2]

lemma stripChars_map_lowerChar (l : List Char) :
    stripChars (l.map lowerChar) = (stripChars l).map lowerChar := by
  unfold stripChars
  have hp : (isSpace ∘ lowerChar) = isSpace := by
    funext c; exact isSpace_lowerChar c
  rw [List.dropWhile_map, hp, ← List.map_reverse, List.dropWhile_map, hp, ← List.map_reverse]

lemma normCol_idem (s : String) : normCol (normCol s) = normCol s := by
  unfold normCol lower strip
  apply congrArg String.mk
  show (stripChars ((stripChars s.data).map lowerChar)).map lowerChar
      = (stripChars s.data).map lowerChar
  rw [stripChars_map_lowerChar, stripChars_idem, List.map_map]
  apply List.map_congr_left
  intro a _
  exact lowerChar_lowerChar a

/-- Substring test, modelling the Python `in` operator on strings. -/
def hasSub (s pat : String) : Bool :=
  s.data.tails.any (fun t => pat.data.isPrefixOf t)

/-- A cell of a table: a string, an integer, a null marker (NaN/NaT/None), or a
date/timestamp value (year, month, day). -/
inductive Cell where
  | str (s : String)
  | int (n : Int)
  | nan
  | date (y m d : Nat)
  deriving DecidableEq, Repr

/-- Zero-padding for date rendering. -/
def pad2 (n : Nat) : String := if n < 10 then "0" ++ toString n else toString n

/-- Model of pandas astype(str) / Python str() on a cell value.  A null marker
renders as the string nan, as pandas astype(str) does. -/
def Cell.toStr : Cell → String
  | .str s => s
  | .int n => toString n
  | .nan => "nan"
  | .date y m d => toString y ++ "-" ++ pad2 m ++ "-" ++ pad2 d

/-- Key normalisation used by check_pk_exists on both sides of the membership
test: `str(v).strip().lower()`. -/
def normKey (c : Cell) : String := lower (strip c.toStr)

/-- A table: a header of column names plus rows of cells (positional, as in a
pandas DataFrame). -/
structure Table where
  cols : List String
  rows : List (List Cell)
  deriving DecidableEq, Repr

def emptyTable : Table := ⟨[], []⟩

/-- The cell of a row under the first column whose name equals x; a null marker
when the column is absent or the row is too short. -/
def cellAt : List String → List Cell → String → Cell
  | c :: cs, v :: vs, x => if c == x then v else cellAt cs vs x
  | c :: cs, [], x => if c == x then Cell.nan else cellAt cs [] x
  | [], _, _ => Cell.nan

/-- The column of a table under name x, as the list of its cells. -/
def getCol (t : Table) (x : String) : List Cell :=
  t.rows.map (fun r => cellAt t.cols r x)

/-- The state of the backing Excel file as an operation starts: absent,
present but unparsable by read_excel, or parsed into a table. -/
inductive FileState where
  | missing
  | unparsable
  | parsed (t : Table)

/-- Strip string cells, modelling the per-column `.str.strip()` applied by
get_table_data to object-typed columns. -/
def stripCell : Cell → Cell
  | .str s => .str (strip s)
  | c => c

/-- Normalisation applied by get_table_data after reading: lowercase/trim the
column names and strip text cells. -/
def normTable (t : Table) : Table :=
  ⟨t.cols.map normCol, t.rows.map (List.map stripCell)⟩

/-- Result of get_table_data: the returned table, plus whether the
read-failure branch (st.error) was taken. -/
structure LoadResult where
  table : Table
  readError : Bool
  deriving DecidableEq, Repr

/-- Embedding of get_table_data: missing file yields an empty table with a
warning only; an unparsable file yields an empty table with the error
reported; a parsed file is normalised and returned. -/
def get_table_data : FileState → LoadResult
  | .missing => ⟨emptyTable, false⟩
  | .unparsable => ⟨emptyTable, true⟩
  | .parsed t => ⟨normTable t, false⟩

/-- Embedding of check_pk_exists: false on a missing file or read failure;
otherwise lowercase the column names, lowercase the requested key column
name, and test trimmed-lowercased string membership of the key value in
that column. -/
def check_pk_exists (fs : FileState) (pkColumnName : String) (pkValue : Cell) : Bool :=
  match fs with
  | .missing => false
  | .unparsable => false
  | .parsed t =>
    let cols := t.cols.map normCol
    let pk := lower pkColumnName
    if cols.contains pk then
      (getCol ⟨cols, t.rows⟩ pk).any (fun c => normKey c == normKey pkValue)
    else false

/-- Date-like column-name test used by update_table before writing:
`'date' in col.lower() or 'dob' in col.lower()`. -/
def isDateCol (c : String) : Bool :=
  hasSub (lower c) "date" || hasSub (lower c) "dob"

/-- Split a character list at dashes. -/
def splitDash : List Char → List (List Char)
  | [] => [[]]
  | c :: cs =>
    let rest := splitDash cs
    if c = '-' then [] :: rest
    else
      match rest with
      | r :: rs => (c :: r) :: rs
      | [] => [[c]]

/-- Decimal digits to a number. -/
def digitsToNat (l : List Char) : Nat :=
  l.foldl (fun n c => 10 * n + (c.toNat - 48)) 0

/-- Modelled from the spec: pandas.to_datetime date-string parsing (a library
function, not part of src/), modelled as accepting ISO `YYYY-MM-DD` digit
strings and rejecting everything else. -/
def parseDate (s : String) : Option (Nat × Nat × Nat) :=
  match splitDash s.data with
  | [y, m, d] =>
    if y.length == 4 && y.all Char.isDigit && decide (m.length = 1 ∨ m.length = 2)
        && m.all Char.isDigit && decide (d.length = 1 ∨ d.length = 2)
        && d.all Char.isDigit then
      some (digitsToNat y, digitsToNat m, digitsToNat d)
    else none
  | _ => none

/-- Modelled from the spec: pandas.to_datetime with errors equal to coerce (a
library function, not part of src/): dates stay dates, null stays null,
parsable strings become dates, unparsable strings become the null marker NaT,
and integers coerce to an epoch-based timestamp (modelled coarsely). -/
def toDatetime : Cell → Cell
  | .str s =>
    match parseDate s with
    | some (y, m, d) => .date y m d
    | none => .nan
  | .nan => .nan
  | .int _ => .date 1970 1 1
  | .date y m d => .date y m d

/-- Apply the update_table date coercion to one row, positionally: cells under
a date-like column name go through to_datetime. -/
def coerceRow : List String → List Cell → List Cell
  | c :: cs, v :: vs =>
    (if isDateCol c then toDatetime v else v) :: coerceRow cs vs
  | _, _ => []

/-- Value of the new record at a column name, null when the record lacks the
column; mirrors the `if col not in new_df_row.columns: new_df_row[col] = nan`
loop followed by `new_df_row[df.columns]`. -/
def lookupRec (rec : List (String × Cell)) (c : String) : Cell :=
  match rec.find? (fun p => p.1 == c) with
  | some p => p.2
  | none => Cell.nan

/-- Result of update_table: the table written to disk, and whether the branch
reporting a read failure over an existing-but-unparsable file was taken. -/
structure AddResult where
  written : Table
  readErrorReported : Bool
  deriving DecidableEq, Repr

/-- Embedding of update_table: on a parsed file, lowercase the existing
columns, build the appended row from the record restricted to those columns
(missing ones null), and append; on a missing file or a read failure, the
written table is just the one-row record; finally coerce date-like columns. -/
def update_table (fs : FileState) (newRecord : List (String × Cell)) : AddResult :=
  let newCols := newRecord.map Prod.fst
  let newRow : List Cell := newRecord.map Prod.snd
  let pre : Table × Bool :=
    match fs with
    | .parsed old =>
      let cols := old.cols.map normCol
      (⟨cols, old.rows ++ [cols.map (lookupRec newRecord)]⟩, false)
    | .unparsable => (⟨newCols, [newRow]⟩, true)
    | .missing => (⟨newCols, [newRow]⟩, false)
  ⟨⟨pre.1.cols, pre.1.rows.map (coerceRow pre.1.cols)⟩, pre.2⟩

/-- Embedding of delete_record: fails on a missing file, an undefined primary
key, a read failure, or an absent primary-key column; otherwise keeps exactly
the rows whose stringified key differs from the stringified target, writing
only when at least one row was dropped.  Returns the success flag and the
written table, if any. -/
def delete_record (fs : FileState) (pkColOpt : Option String) (recordId : String) :
    Bool × Option Table :=
  match fs, pkColOpt with
  | .missing, _ => (false, none)
  | _, none => (false, none)
  | .unparsable, some _ => (false, none)
  | .parsed t, some pkc =>
    let df : Table := ⟨t.cols.map normCol, t.rows⟩
    let pk := lower pkc
    if df.cols.contains pk then
      let keep := df.rows.filter (fun r => !((cellAt df.cols r pk).toStr == recordId))
      if keep.length < df.rows.length then (true, some ⟨df.cols, keep⟩)
      else (false, none)
    else (false, none)

/-- Outcome signal of the Save Changes path of display_data_editor. -/
inductive SaveSignal where
  | noChanges
  | noPkDefined
  | pkColumnMissing
  | emptyKeyError
  | duplicateKeyError
  | saved
  deriving DecidableEq, Repr

/-- Duplicate test over a list of strings, modelling
`pk_series_str.duplicated().any()`. -/
def hasDup : List String → Bool
  | [] => false
  | x :: xs => xs.contains x || hasDup xs

/-- Embedding of the Save Changes branch of display_data_editor: no-op when
the edit equals the original, then primary-key presence, emptiness and
duplicate checks over the stringified key column, then the wholesale write.
Returns the signal and the written table, if any. -/
def save_changes (df edited : Table) (pkColOpt : Option String) :
    SaveSignal × Option Table :=
  if edited = df then (.noChanges, none)
  else
    match pkColOpt with
    | none => (.noPkDefined, none)
    | some pkCol =>
      let e : Table := ⟨edited.cols.map normCol, edited.rows⟩
      if e.cols.contains pkCol then
        let pkCells := getCol e pkCol
        let pkStr := pkCells.map Cell.toStr
        if pkCells.any (fun c => c == Cell.nan)
            || pkStr.any (fun s => s == "" || lower s == "nan" || lower s == "nat") then
          (.emptyKeyError, none)
        else if hasDup pkStr then (.duplicateKeyError, none)
        else (.saved, some e)
      else (.pkColumnMissing, none)

/-- The inputs of the students Add New Record form (widget values in scope
when the submit handler runs). -/
structure StudentForm where
  student_id : String
  student_Name : String
  student_class : Int
  gender : String
  dobY : Nat
  dobM : Nat
  dobD : Nat
  email : String
  phone : String
  address : String
  admY : Nat
  admM : Nat
  admD : Nat
  fee_status : String
  last_updated : String

/-- The local variables bound in the students form scope, by their Python
names; note the StudentName widget is bound as student_Name with a capital N
(source line 142). -/
def studentScopeVars (f : StudentForm) : List (String × Cell) :=
  [("student_id", .str f.student_id),
   ("student_Name", .str f.student_Name),
   ("student_class", .int f.student_class),
   ("gender", .str f.gender),
   ("dob", .date f.dobY f.dobM f.dobD),
   ("email", .str f.email),
   ("phone", .str f.phone),
   ("address", .str f.address),
   ("admission_date", .date f.admY f.admM f.admD),
   ("fee_status", .str f.fee_status)]

/-- Python name lookup in a modelled scope: an unbound name raises NameError,
modelled as an error carrying the offending name. -/
def lookupVar (env : List (String × Cell)) (x : String) : Except String Cell :=
  match env.find? (fun p => p.1 == x) with
  | some p => .ok p.2
  | none => .error x

/-- The names referenced by the required_fields line of the students submit
handler, exactly as written at source line 154 (student_name, lowercase n). -/
def requiredFieldNames : List String :=
  ["student_id", "student_name", "student_class", "gender", "dob", "email",
   "admission_date", "fee_status"]

/-- Outcome of a students Add form submission. -/
inductive AddOutcome where
  | nameError (x : String)
  | validationError
  | emptyKeyError
  | duplicateKeyError
  | added
  deriving DecidableEq, Repr

/-- Python truthiness of a cell value (NaN is a float and is truthy). -/
def Cell.pyTruthy : Cell → Bool
  | .str s => !(s == "")
  | .int n => !(n == 0)
  | .nan => true
  | .date _ _ _ => true

/-- isinstance(field, (int, float, pd.Timestamp, datetime)) for the modelled
cell values: integers and floats (NaN) qualify; datetime.date values from
st.date_input do not (datetime.date is not datetime.datetime). -/
def Cell.isNumericOrDatetime : Cell → Bool
  | .int _ => true
  | .nan => true
  | .str _ => false
  | .date _ _ _ => false

/-- The record dict built by the students submit handler (source lines
167-179). -/
def newStudentRecord (f : StudentForm) : List (String × Cell) :=
  [("student_id", .str (strip f.student_id)),
   ("studentName", .str (strip f.student_Name)),
   ("class", .int f.student_class),
   ("gender", .str f.gender),
   ("dob", .date f.dobY f.dobM f.dobD),
   ("email", .str (strip f.email)),
   ("phone", if f.phone == "" then Cell.nan else .str (strip f.phone)),
   ("address", if f.address == "" then Cell.nan else .str (strip f.address)),
   ("admission_date", .date f.admY f.admM f.admD),
   ("fee_status", .str f.fee_status),
   ("last_updated", .str f.last_updated)]

/-- Embedding of the students submit handler of add_new_record_form: evaluate
the required_fields list (which looks up the unbound name student_name), then
the nested required-field truthiness checks, the empty-key check, the
duplicate-key check, and finally update_table. -/
def students_add_submit (fs : FileState) (f : StudentForm) :
    AddOutcome × Option AddResult :=
  let env := studentScopeVars f
  match requiredFieldNames.mapM (lookupVar env) with
  | .error x => (.nameError x, none)
  | .ok requiredFields =>
    let textLike := requiredFields.filter (fun c => ! c.isNumericOrDatetime)
    if (!(textLike.all (fun c => !(strip c.toStr == ""))))
        && (!(requiredFields.all Cell.pyTruthy)) then
      (.validationError, none)
    else if strip f.student_id == "" then (.emptyKeyError, none)
    else if check_pk_exists fs "student_id" (.str f.student_id) then
      (.duplicateKeyError, none)
    else (.added, some (update_table fs (newStudentRecord f)))

/-- A cell is of date/time type or a null marker (the only possible outputs of
the to_datetime coercion). -/
def Cell.isCoerced : Cell → Bool
  | .nan => true
  | .date _ _ _ => true
  | .str _ => false
  | .int _ => false

lemma toDatetime_isCoerced (v : Cell) : (toDatetime v).isCoerced = true := by
  cases v with
  | str s =>
    simp only [toDatetime]
    split <;> rfl
  | int n => rfl
  | nan => rfl
  | date y m d => rfl

lemma map_normCol_idem (l : List String) : (l.map normCol).map normCol = l.map normCol := by
  rw [List.map_map]
  exact List.map_congr_left (fun a _ => normCol_idem a)

lemma hasDup_iff_not_nodup (l : List String) : hasDup l = true ↔ ¬ l.Nodup := by
  induction l with
  | nil => simp [hasDup]
  | cons x xs ih =>
    simp only [hasDup, Bool.or_eq_true, List.nodup_cons, ih]
    rw [List.contains_iff_exists_mem_beq]
    constructor
    · rintro (⟨b, hb, hbeq⟩ | h)
      · intro hc
        exact hc.1 (by rw [show x = b from by simpa using hbeq]; exact hb)
      · intro hc; exact h hc.2
    · intro h
      by_cases hx : x ∈ xs
      · exact Or.inl ⟨x, hx, by simp⟩
      · exact Or.inr (fun hn => h ⟨hx, hn⟩)

lemma cellAt_nil_row (cs : List String) (x : String) : cellAt cs [] x = Cell.nan := by
  induction cs with
  | nil => rfl
  | cons c cs2 ih =>
    show (if c == x then Cell.nan else cellAt cs2 [] x) = Cell.nan
    rw [ih]
    split <;> rfl

lemma cellAt_coerce_map (rec : List (String × Cell)) :
    ∀ (cols : List String) (x : String), x ∈ cols →
    cellAt cols (coerceRow cols (cols.map (lookupRec rec))) x
      = if isDateCol x then toDatetime (lookupRec rec x) else lookupRec rec x := by
  intro cols
  induction cols with
  | nil => intro x hx; simp at hx
  | cons c cs ih =>
    intro x hx
    show cellAt (c :: cs)
        ((if isDateCol c then toDatetime (lookupRec rec c) else lookupRec rec c)
          :: coerceRow cs (cs.map (lookupRec rec))) x = _
    by_cases hcx : c = x
    · subst hcx
      show (if c == c then (if isDateCol c then toDatetime (lookupRec rec c) else lookupRec rec c)
          else _) = _
      rw [if_pos (by simp)]
    · have hbeq : (c == x) = false := beq_eq_false_iff_ne.mpr hcx
      show (if c == x then _ else cellAt cs (coerceRow cs (cs.map (lookupRec rec))) x) = _
      rw [hbeq]
      simp only [Bool.false_eq_true, if_false]
      have hxcs : x ∈ cs := by
        rcases List.mem_cons.mp hx with h | h
        · exact absurd h.symm hcx
        · exact h
      exact ih x hxcs

lemma lookupRec_mem_of_str (rec : List (String × Cell)) (pk k : String)
    (h : lookupRec rec pk = Cell.str k) : pk ∈ rec.map Prod.fst := by
  unfold lookupRec at h
  cases hf : rec.find? (fun p => p.1 == pk) with
  | none => rw [hf] at h; exact absurd h (by simp)
  | some p =>
    rw [hf] at h
    have hp := List.find?_some hf
    have hmem : p ∈ rec := List.mem_of_find?_eq_some hf
    have hpk : pk = p.1 := by
      have : p.1 = pk := by simpa using hp
      exact this.symm
    rw [hpk]
    exact List.mem_map_of_mem Prod.fst hmem

lemma cellAt_scope (pk : String) (hnorm : normCol pk = pk) (hdate : isDateCol pk = false) :
    ∀ rec : List (String × Cell),
    (∀ p ∈ rec, normCol p.1 = pk → p.1 = pk) →
    cellAt (rec.map (fun p => normCol p.1)) (coerceRow (rec.map Prod.fst) (rec.map Prod.snd)) pk
      = lookupRec rec pk := by
  intro rec
  induction rec with
  | nil => intro _; rfl
  | cons p rest ih =>
    intro hkeys
    show cellAt (normCol p.1 :: rest.map (fun q => normCol q.1))
        ((if isDateCol p.1 then toDatetime p.2 else p.2)
          :: coerceRow (rest.map Prod.fst) (rest.map Prod.snd)) pk = lookupRec (p :: rest) pk
    by_cases hc : normCol p.1 = pk
    · have hp1 : p.1 = pk := hkeys p (List.mem_cons_self p rest) hc
      show (if normCol p.1 == pk then (if isDateCol p.1 then toDatetime p.2 else p.2) else _) = _
      rw [if_pos (by rw [hc]; simp)]
      rw [hp1, hdate]
      simp only [Bool.false_eq_true, if_false]
      show p.2 = lookupRec (p :: rest) pk
      unfold lookupRec
      rw [List.find?_cons_of_pos _ (by rw [hp1]; simp)]
    · have hp1 : p.1 ≠ pk := fun he => hc (by rw [he, hnorm])
      have hbeq : (normCol p.1 == pk) = false := beq_eq_false_iff_ne.mpr hc
      show (if normCol p.1 == pk then _
          else cellAt (rest.map (fun q => normCol q.1))
            (coerceRow (rest.map Prod.fst) (rest.map Prod.snd)) pk) = _
      rw [hbeq]
      simp only [Bool.false_eq_true, if_false]
      have hrest := ih (fun q hq => hkeys q (List.mem_cons_of_mem p hq))
      rw [hrest]
      unfold lookupRec
      rw [List.find?_cons_of_neg _ (by simp [hp1])]

lemma coerceRow_getD : ∀ (cs : List String) (vs : List Cell) (j : Nat),
    j < cs.length → isDateCol (cs.getD j "") = true →
    Cell.isCoerced ((coerceRow cs vs).getD j Cell.nan) = true := by
  intro cs
  induction cs with
  | nil => intro vs j hj _; simp at hj
  | cons c cs2 ih =>
    intro vs j hj hd
    cases vs with
    | nil =>
      show Cell.isCoerced (([] : List Cell).getD j Cell.nan) = true
      cases j <;> rfl
    | cons v vs2 =>
      cases j with
      | zero =>
        have hc : isDateCol c = true := by simpa using hd
        show Cell.isCoerced
            (((if isDateCol c then toDatetime v else v) :: coerceRow cs2 vs2).getD 0 Cell.nan)
            = true
        rw [hc]
        simp only [if_true]
        exact toDatetime_isCoerced v
      | succ j2 =>
        show Cell.isCoerced
            (((if isDateCol c then toDatetime v else v) :: coerceRow cs2 vs2).getD (j2 + 1) Cell.nan)
            = true
        have hj2 : j2 < cs2.length := by simpa using hj
        have hd2 : isDateCol (cs2.getD j2 "") = true := by simpa using hd
        simpa using ih vs2 j2 hj2 hd2

lemma update_table_rows_shape (fs : FileState) (rec : List (String × Cell)) :
    ∃ pre : List (List Cell),
      (update_table fs rec).written.rows
        = pre.map (coerceRow (update_table fs rec).written.cols) := by
  cases fs with
  | missing => exact ⟨[rec.map Prod.snd], rfl⟩
  | unparsable => exact ⟨[rec.map Prod.snd], rfl⟩
  | parsed old =>
    exact ⟨old.rows ++ [(old.cols.map normCol).map (lookupRec rec)], rfl⟩

/-- C8: get_table_data returns an empty table with no read-error signal when
the backing file is missing, and reports a ReadError while still handing the
caller an empty table when the file exists but cannot be parsed. -/
theorem load_missing_and_unparsable :
    get_table_data .missing = ⟨emptyTable, false⟩ ∧
    get_table_data .unparsable = ⟨emptyTable, true⟩ :=
  ⟨rfl, rfl⟩

/-- C9: for every primary-key column name and candidate value, check_pk_exists
returns false, never an error, when the backing file does not exist or when
the key column is absent from the loaded table. -/
theorem exists_check_false_on_missing (pk : String) (v : Cell) (t : Table)
    (habs : (t.cols.map normCol).contains (lower pk) = false) :
    check_pk_exists .missing pk v = false ∧
    check_pk_exists (.parsed t) pk v = false := by
  constructor
  · rfl
  · show (if (t.cols.map normCol).contains (lower pk) = true then
        (getCol ⟨t.cols.map normCol, t.rows⟩ (lower pk)).any
          (fun c => normKey c == normKey v)
      else false) = false
    rw [habs]
    simp

/-- Witness for C9 at a concrete table lacking the student_id column. -/
theorem exists_check_false_on_missing_w :
    check_pk_exists .missing "student_id" (.str "S1") = false ∧
    check_pk_exists (.parsed ⟨["name"], [[.str "bob"]]⟩) "student_id" (.str "S1") = false :=
  exists_check_false_on_missing "student_id" (.str "S1") ⟨["name"], [[.str "bob"]]⟩ (by decide)

/-- C5: when the backing file exists but cannot be parsed, update_table
reports the read failure and still writes a one-row table holding only the
new record (date-coerced), so every previously persisted row is lost. -/
theorem add_on_unparsable_overwrites (rec : List (String × Cell)) :
    update_table .unparsable rec
      = ⟨⟨rec.map Prod.fst, [coerceRow (rec.map Prod.fst) (rec.map Prod.snd)]⟩, true⟩ ∧
    (update_table .unparsable rec).written.rows.length = 1 ∧
    (update_table .unparsable rec).readErrorReported = true :=
  ⟨rfl, rfl, rfl⟩

/-- C10: every students Add submission, whatever the field contents, reaches
the unbound name student_name on the required-fields line and stops with
NameError before any validation, duplicate check or write; no record is ever
persisted through this form. -/
theorem students_add_always_nameError (fs : FileState) (f : StudentForm) :
    students_add_submit fs f = (.nameError "student_name", none) := rfl

/-- C1 counterexample: with one row whose key cell is " 7 ", Delete with
target "7" removes nothing and reports not-found, even though the two values
are the same identity under trim+lowercase and the existence check finds
the row. -/
theorem delete_trimmed_identity_cex :
    delete_record (.parsed ⟨["student_id"], [[.str " 7 "]]⟩) (some "student_id") "7"
      = (false, none) ∧
    normKey (.str " 7 ") = normKey (.str "7") ∧
    check_pk_exists (.parsed ⟨["student_id"], [[.str " 7 "]]⟩) "student_id" (.str "7") = true :=
  ⟨by decide, by decide, by decide⟩

/-- C2 counterexample: an edited table whose keys "A1" and "a1 " collide under
trim+lowercase is not rejected; the save path reports success and writes the
edited table. -/
theorem update_dup_check_cex :
    save_changes ⟨["student_id"], [[.str "A1"], [.str "B2"]]⟩
        ⟨["student_id"], [[.str "A1"], [.str "a1 "]]⟩ (some "student_id")
      = (.saved, some ⟨["student_id"], [[.str "A1"], [.str "a1 "]]⟩) ∧
    normKey (.str "A1") = normKey (.str "a1 ") :=
  ⟨by decide, by decide⟩

/-- C3 counterexample: adding a record with columns a and b to a table with
column a persists only column a; the record's extra column b is dropped, not
unioned in. -/
theorem add_union_cex :
    (update_table (.parsed ⟨["a"], [[.str "x"]]⟩)
        [("a", .str "y"), ("b", .str "z")]).written
      = ⟨["a"], [[.str "x"], [.str "y"]]⟩ ∧
    "b" ∈ [("a", Cell.str "y"), ("b", Cell.str "z")].map Prod.fst ∧
    "b" ∉ (update_table (.parsed ⟨["a"], [[.str "x"]]⟩)
        [("a", .str "y"), ("b", .str "z")]).written.cols :=
  ⟨by decide, by decide, by decide⟩

/-- C4 counterexample: when the existing table lacks the primary-key column,
the key "S1" is not present before the Add (so the claim's hypothesis holds),
yet after Add(r) the appended row has lost its key and Exists("S1") is still
false. -/
theorem add_then_exists_cex :
    check_pk_exists (.parsed ⟨["name"], [[.str "bob"]]⟩) "student_id" (.str "S1") = false ∧
    check_pk_exists
      (.parsed (update_table (.parsed ⟨["name"], [[.str "bob"]]⟩)
        [("student_id", .str "S1")]).written)
      "student_id" (.str "S1") = false :=
  ⟨by decide, by decide⟩

/-- C7 counterexample: the Save Changes write path persists an unparsable
string under the date-like column dob unchanged instead of coercing it to a
null marker. -/
theorem update_no_date_coercion_cex :
    save_changes ⟨["student_id", "dob"], [[.str "S1", .str "x"]]⟩
        ⟨["student_id", "dob"], [[.str "S1", .str "notadate"]]⟩ (some "student_id")
      = (.saved, some ⟨["student_id", "dob"], [[.str "S1", .str "notadate"]]⟩) ∧
    isDateCol "dob" = true ∧
    parseDate "notadate" = none ∧
    Cell.isCoerced (.str "notadate") = false :=
  ⟨by decide, by decide, by decide, by decide⟩

/-- C1 amended: the existence check used by Add compares keys as trimmed,
lowercased strings (membership holds exactly when some cell of the key column
agrees with the candidate under normKey), while the row filter used by Delete
compares exact stringified values with no trimming or case folding (the rows
surviving a Delete are exactly those whose stringified key differs from the
target), and the duplicate test used by Update flags exactly-equal
stringified keys (hasDup holds exactly when the stringified key list has a
repeat). -/
theorem pk_comparison_semantics (df : Table) (pk : String) (v : Cell)
    (hcol : (df.cols.map normCol).contains (lower pk) = true) :
    (check_pk_exists (.parsed df) pk v = true ↔
      ∃ c ∈ getCol ⟨df.cols.map normCol, df.rows⟩ (lower pk), normKey c = normKey v) ∧
    (∀ id : String,
      (match (delete_record (.parsed df) (some pk) id).2 with
       | some w => w.rows
       | none => df.rows)
      = df.rows.filter
          (fun r => !((cellAt (df.cols.map normCol) r (lower pk)).toStr == id))) ∧
    (∀ l : List String, hasDup l = true ↔ ¬ l.Nodup) := by
  refine ⟨?_, ?_, hasDup_iff_not_nodup⟩
  · show (if (df.cols.map normCol).contains (lower pk) = true then
        (getCol ⟨df.cols.map normCol, df.rows⟩ (lower pk)).any
          (fun c => normKey c == normKey v)
      else false) = true ↔ _
    rw [hcol, if_pos rfl, List.any_eq_true]
    constructor
    · rintro ⟨c, hc, hbeq⟩
      exact ⟨c, hc, by simpa using hbeq⟩
    · rintro ⟨c, hc, heq⟩
      exact ⟨c, hc, by simpa using heq⟩
  · intro id
    simp only [delete_record]
    rw [hcol]
    simp only [if_true]
    by_cases hlen :
        (df.rows.filter
          (fun r => !((cellAt (df.cols.map normCol) r (lower pk)).toStr == id))).length
          < df.rows.length
    · rw [if_pos hlen]
    · rw [if_neg hlen]
      have hle := List.length_filter_le
        (fun r => !((cellAt (df.cols.map normCol) r (lower pk)).toStr == id)) df.rows
      have heq : (df.rows.filter
          (fun r => !((cellAt (df.cols.map normCol) r (lower pk)).toStr == id))).length
          = df.rows.length := by omega
      have hall := List.filter_length_eq_length.mp heq
      exact (List.filter_eq_self.mpr hall).symm

/-- Witness for C1 amended at the one-row " 7 " table with target "7": the
exact-match filter keeps the row. -/
theorem pk_comparison_semantics_w :
    (match (delete_record (.parsed ⟨["student_id"], [[Cell.str " 7 "]]⟩)
        (some "student_id") "7").2 with
     | some w => w.rows
     | none => [[Cell.str " 7 "]])
    = [[Cell.str " 7 "]].filter
        (fun r => !((cellAt (["student_id"].map normCol) r (lower "student_id")).toStr == "7")) :=
  (pk_comparison_semantics ⟨["student_id"], [[Cell.str " 7 "]]⟩ "student_id"
    (Cell.str "7") (by decide)).2.1 "7"

/-- C2 amended: the Save Changes path rejects an edited table with
DuplicateKeyError, and writes nothing, exactly when two rows carry the same
stringified primary-key value (no trimming or lowercasing); keys that collide
only after trim+lowercase, such as "A1" and "a1 ", are not rejected. -/
theorem update_rejects_exact_duplicates (df edited : Table) (pkCol : String)
    (hne : edited ≠ df)
    (hcol : (edited.cols.map normCol).contains pkCol = true)
    (hkeysOk : ((getCol ⟨edited.cols.map normCol, edited.rows⟩ pkCol).any
          (fun c => c == Cell.nan)
        || ((getCol ⟨edited.cols.map normCol, edited.rows⟩ pkCol).map Cell.toStr).any
          (fun s => s == "" || lower s == "nan" || lower s == "nat")) = false)
    (hdup : ¬ (((getCol ⟨edited.cols.map normCol, edited.rows⟩ pkCol).map Cell.toStr).Nodup)) :
    save_changes df edited (some pkCol) = (.duplicateKeyError, none) := by
  show (if edited = df then ((SaveSignal.noChanges : SaveSignal), (none : Option Table))
    else
      if (edited.cols.map normCol).contains pkCol = true then
        if ((getCol ⟨edited.cols.map normCol, edited.rows⟩ pkCol).any
              (fun c => c == Cell.nan)
            || ((getCol ⟨edited.cols.map normCol, edited.rows⟩ pkCol).map Cell.toStr).any
              (fun s => s == "" || lower s == "nan" || lower s == "nat")) = true then
          (.emptyKeyError, none)
        else if hasDup ((getCol ⟨edited.cols.map normCol, edited.rows⟩ pkCol).map Cell.toStr)
            = true then
          (.duplicateKeyError, none)
        else (.saved, some ⟨edited.cols.map normCol, edited.rows⟩)
      else (.pkColumnMissing, none)) = (.duplicateKeyError, none)
  rw [if_neg hne, hcol, if_pos rfl, hkeysOk]
  simp only [Bool.false_eq_true, if_false]
  rw [if_pos ((hasDup_iff_not_nodup _).mpr hdup)]

/-- Witness for C2 amended: two exactly equal keys "A1" produce the rejection. -/
theorem update_rejects_exact_duplicates_w :
    save_changes ⟨["student_id"], [[.str "A1"], [.str "B2"]]⟩
        ⟨["student_id"], [[.str "A1"], [.str "A1"]]⟩ (some "student_id")
      = (.duplicateKeyError, none) :=
  update_rejects_exact_duplicates ⟨["student_id"], [[.str "A1"], [.str "B2"]]⟩
    ⟨["student_id"], [[.str "A1"], [.str "A1"]]⟩ "student_id"
    (by decide) (by decide) (by decide) (by decide)

/-- C3 amended: when the backing file parses, the persisted column set after
an Add is exactly the existing table's normalised columns — existing columns
missing from the record are filled with a null marker in the appended row,
and record columns not already in the table are dropped; only when Add is the
very first write (no backing file) is the persisted schema exactly the
record's own columns. -/
theorem add_schema_existing_columns (old : Table) (rec : List (String × Cell)) :
    (update_table (.parsed old) rec).written.cols = old.cols.map normCol ∧
    (∀ lastRow, (update_table (.parsed old) rec).written.rows.getLast? = some lastRow →
      ∀ c ∈ old.cols.map normCol, rec.find? (fun p => p.1 == c) = none →
        cellAt (old.cols.map normCol) lastRow c = Cell.nan) ∧
    (update_table .missing rec).written.cols = rec.map Prod.fst := by
  refine ⟨rfl, ?_, rfl⟩
  intro lastRow hlast c hc hfind
  have hrows : (update_table (.parsed old) rec).written.rows
      = old.rows.map (coerceRow (old.cols.map normCol))
        ++ [coerceRow (old.cols.map normCol)
            ((old.cols.map normCol).map (lookupRec rec))] := by
    show (old.rows ++ [(old.cols.map normCol).map (lookupRec rec)]).map
        (coerceRow (old.cols.map normCol)) = _
    rw [List.map_append]
    rfl
  rw [hrows, List.getLast?_concat] at hlast
  have hlr : lastRow = coerceRow (old.cols.map normCol)
      ((old.cols.map normCol).map (lookupRec rec)) := by
    injection hlast with h
    exact h.symm
  rw [hlr, cellAt_coerce_map rec (old.cols.map normCol) c hc]
  have hnan : lookupRec rec c = Cell.nan := by
    unfold lookupRec
    rw [hfind]
  rw [hnan]
  split <;> rfl

/-- Witness for C3 amended: a table with columns a, b and a record providing
only a leaves a null marker under b in the appended row. -/
theorem add_schema_existing_columns_w :
    (update_table (.parsed ⟨["a", "b"], [[Cell.str "x", Cell.str "y"]]⟩)
        [("a", Cell.str "z")]).written.cols = ["a", "b"].map normCol ∧
    cellAt (["a", "b"].map normCol) [Cell.str "z", Cell.nan] "b" = Cell.nan ∧
    (update_table .missing [("a", Cell.str "z")]).written.cols
      = [("a", Cell.str "z")].map Prod.fst := by
  have h := add_schema_existing_columns ⟨["a", "b"], [[Cell.str "x", Cell.str "y"]]⟩
    [("a", Cell.str "z")]
  exact ⟨h.1, h.2.1 [Cell.str "z", Cell.nan] (by decide) "b" (by decide) (by decide), h.2.2⟩

/-- C4 amended: Add(r) followed by Exists(k) returns true for a record
carrying the key value k under the (normalised, non-date-like) primary-key
column name, provided the backing table, when it exists and parses, itself
contains the primary-key column; the counterexample shows the conclusion
fails when that column is absent from the existing table. -/
theorem add_then_exists (fs : FileState) (rec : List (String × Cell)) (pk k : String)
    (hstrip : strip pk = pk) (hlower : lower pk = pk)
    (hdate : isDateCol pk = false)
    (hrec : lookupRec rec pk = Cell.str k)
    (hkeys : ∀ p ∈ rec, normCol p.1 = pk → p.1 = pk)
    (hcol : ∀ t, fs = FileState.parsed t → (t.cols.map normCol).contains pk = true)
    (hnot : check_pk_exists fs pk (Cell.str k) = false) :
    check_pk_exists (.parsed (update_table fs rec).written) pk (Cell.str k) = true := by
  have hnorm : normCol pk = pk := by
    unfold normCol
    rw [hstrip, hlower]
  -- the key is found in a written table whose pk column holds the cell .str k
  have hself : (normKey (Cell.str k) == normKey (Cell.str k)) = true := by simp
  cases fs with
  | parsed old =>
    have hcontains : ((old.cols.map normCol).map normCol).contains (lower pk) = true := by
      rw [map_normCol_idem, hlower]
      exact hcol old rfl
    show (if ((old.cols.map normCol).map normCol).contains (lower pk) = true then
        (getCol ⟨(old.cols.map normCol).map normCol,
          (update_table (.parsed old) rec).written.rows⟩ (lower pk)).any
          (fun c => normKey c == normKey (Cell.str k))
      else false) = true
    rw [hcontains, if_pos rfl]
    apply List.any_eq_true.mpr
    have hpkmem : pk ∈ old.cols.map normCol := by
      have := hcol old rfl
      exact List.elem_iff.mp this
    have hrowmem : coerceRow (old.cols.map normCol)
        ((old.cols.map normCol).map (lookupRec rec))
        ∈ (update_table (.parsed old) rec).written.rows := by
      show _ ∈ (old.rows ++ [(old.cols.map normCol).map (lookupRec rec)]).map
        (coerceRow (old.cols.map normCol))
      exact List.mem_map_of_mem _
        (List.mem_append_right _ (List.mem_singleton.mpr rfl))
    refine ⟨cellAt ((old.cols.map normCol).map normCol)
        (coerceRow (old.cols.map normCol) ((old.cols.map normCol).map (lookupRec rec)))
        (lower pk), ?_, ?_⟩
    · exact List.mem_map_of_mem _ hrowmem
    · rw [map_normCol_idem, hlower,
        cellAt_coerce_map rec (old.cols.map normCol) pk hpkmem, hdate]
      simp only [Bool.false_eq_true, if_false]
      rw [hrec]
      exact hself
  | missing =>
    have hpkkeys : pk ∈ rec.map Prod.fst := lookupRec_mem_of_str rec pk k hrec
    have hcontains : ((rec.map Prod.fst).map normCol).contains (lower pk) = true := by
      rw [hlower]
      apply List.elem_iff.mpr
      rw [← hnorm]
      exact List.mem_map_of_mem normCol hpkkeys
    show (if ((rec.map Prod.fst).map normCol).contains (lower pk) = true then
        (getCol ⟨(rec.map Prod.fst).map normCol,
          [coerceRow (rec.map Prod.fst) (rec.map Prod.snd)]⟩ (lower pk)).any
          (fun c => normKey c == normKey (Cell.str k))
      else false) = true
    rw [hcontains, if_pos rfl]
    show (cellAt ((rec.map Prod.fst).map normCol)
        (coerceRow (rec.map Prod.fst) (rec.map Prod.snd)) (lower pk) |>
          fun c => (normKey c == normKey (Cell.str k)) || false) = true
    rw [hlower, List.map_map]
    have := cellAt_scope pk hnorm hdate rec hkeys
    rw [show (rec.map (normCol ∘ Prod.fst)) = rec.map (fun p => normCol p.1) from rfl, this, hrec]
    simp
  | unparsable =>
    have hpkkeys : pk ∈ rec.map Prod.fst := lookupRec_mem_of_str rec pk k hrec
    have hcontains : ((rec.map Prod.fst).map normCol).contains (lower pk) = true := by
      rw [hlower]
      apply List.elem_iff.mpr
      rw [← hnorm]
      exact List.mem_map_of_mem normCol hpkkeys
    show (if ((rec.map Prod.fst).map normCol).contains (lower pk) = true then
        (getCol ⟨(rec.map Prod.fst).map normCol,
          [coerceRow (rec.map Prod.fst) (rec.map Prod.snd)]⟩ (lower pk)).any
          (fun c => normKey c == normKey (Cell.str k))
      else false) = true
    rw [hcontains, if_pos rfl]
    show (cellAt ((rec.map Prod.fst).map normCol)
        (coerceRow (rec.map Prod.fst) (rec.map Prod.snd)) (lower pk) |>
          fun c => (normKey c == normKey (Cell.str k)) || false) = true
    rw [hlower, List.map_map]
    have := cellAt_scope pk hnorm hdate rec hkeys
    rw [show (rec.map (normCol ∘ Prod.fst)) = rec.map (fun p => normCol p.1) from rfl, this, hrec]
    simp

/-- Witness for C4 amended: adding student S1 to a one-row students table and
checking its existence afterwards. -/
theorem add_then_exists_w :
    check_pk_exists
      (.parsed (update_table (.parsed ⟨["student_id"], [[Cell.str "x1"]]⟩)
        [("student_id", Cell.str "S1"), ("studentName", Cell.str "Bob")]).written)
      "student_id" (Cell.str "S1") = true :=
  add_then_exists (.parsed ⟨["student_id"], [[Cell.str "x1"]]⟩)
    [("student_id", Cell.str "S1"), ("studentName", Cell.str "Bob")]
    "student_id" "S1" (by decide) (by decide) (by decide) (by decide)
    (by decide) (by intro t ht; cases ht; decide) (by decide)

lemma filter_bang_length_add_countP {α} (p : α → Bool) (l : List α) :
    (l.filter (fun a => !(p a))).length + l.countP p = l.length := by
  induction l with
  | nil => rfl
  | cons x xs ih =>
    by_cases h : p x
    · rw [List.filter_cons_of_neg (by simp [h]), List.countP_cons, if_pos h]
      simp only [List.length_cons]
      omega
    · rw [List.filter_cons_of_pos (by simp [h]), List.countP_cons, if_neg h]
      simp only [List.length_cons]
      omega

/-- C6: over a parsed table whose stringified primary-key values are pairwise
distinct, Delete with a present key succeeds, persists a table with exactly
one row fewer and no remaining row carrying that key, while Delete with an
absent key writes nothing and reports not-found. -/
theorem delete_present_and_absent (t : Table) (pkc k : String)
    (hcol : (t.cols.map normCol).contains (lower pkc) = true)
    (hnodup : (t.rows.map
        (fun r => (cellAt (t.cols.map normCol) r (lower pkc)).toStr)).Nodup) :
    ((∃ r ∈ t.rows, (cellAt (t.cols.map normCol) r (lower pkc)).toStr = k) →
      (delete_record (.parsed t) (some pkc) k).1 = true ∧
      ∃ w, (delete_record (.parsed t) (some pkc) k).2 = some w ∧
        w.rows.length + 1 = t.rows.length ∧
        ∀ r ∈ w.rows, (cellAt (t.cols.map normCol) r (lower pkc)).toStr ≠ k) ∧
    ((∀ r ∈ t.rows, (cellAt (t.cols.map normCol) r (lower pkc)).toStr ≠ k) →
      delete_record (.parsed t) (some pkc) k = (false, none)) := by
  have hdel : delete_record (.parsed t) (some pkc) k
      = if (t.rows.filter
            (fun r => !((cellAt (t.cols.map normCol) r (lower pkc)).toStr == k))).length
          < t.rows.length then
          (true, some ⟨t.cols.map normCol,
            t.rows.filter
              (fun r => !((cellAt (t.cols.map normCol) r (lower pkc)).toStr == k))⟩)
        else (false, none) := by
    simp only [delete_record]
    rw [hcol]
    simp only [if_true]
  constructor
  · rintro ⟨x, hx, hxk⟩
    -- the filter drops at least one row
    have hPx : (!((cellAt (t.cols.map normCol) x (lower pkc)).toStr == k)) = false := by
      rw [hxk]
      simp
    have hle := List.length_filter_le
      (fun r => !((cellAt (t.cols.map normCol) r (lower pkc)).toStr == k)) t.rows
    have hlt : (t.rows.filter
        (fun r => !((cellAt (t.cols.map normCol) r (lower pkc)).toStr == k))).length
        < t.rows.length := by
      rcases Nat.lt_or_ge (t.rows.filter
          (fun r => !((cellAt (t.cols.map normCol) r (lower pkc)).toStr == k))).length
          t.rows.length with h | h
      · exact h
      · exfalso
        have heq : (t.rows.filter
            (fun r => !((cellAt (t.cols.map normCol) r (lower pkc)).toStr == k))).length
            = t.rows.length := by omega
        have hall := List.filter_length_eq_length.mp heq x hx
        rw [hPx] at hall
        exact Bool.false_ne_true hall
    rw [hdel, if_pos hlt]
    refine ⟨rfl, ⟨t.cols.map normCol,
      t.rows.filter
        (fun r => !((cellAt (t.cols.map normCol) r (lower pkc)).toStr == k))⟩, rfl, ?_, ?_⟩
    · -- exactly one row matched, so the filtered length is one less
      have hcount1 : List.countP
          (fun r => ((cellAt (t.cols.map normCol) r (lower pkc)).toStr == k)) t.rows = 1 := by
        have hto : List.countP
            (fun r => ((cellAt (t.cols.map normCol) r (lower pkc)).toStr == k)) t.rows
            = List.count k (t.rows.map
                (fun r => (cellAt (t.cols.map normCol) r (lower pkc)).toStr)) := by
          rw [List.count_eq_countP, List.countP_map]
          rfl
        have hle1 : List.count k (t.rows.map
            (fun r => (cellAt (t.cols.map normCol) r (lower pkc)).toStr)) ≤ 1 :=
          List.nodup_iff_count_le_one.mp hnodup k
        have hge1 : 1 ≤ List.count k (t.rows.map
            (fun r => (cellAt (t.cols.map normCol) r (lower pkc)).toStr)) :=
          List.one_le_count_iff.mpr
            (List.mem_map.mpr ⟨x, hx, hxk⟩)
        omega
      have hadd := filter_bang_length_add_countP
        (fun r => ((cellAt (t.cols.map normCol) r (lower pkc)).toStr == k)) t.rows
      show (t.rows.filter
        (fun r => !((cellAt (t.cols.map normCol) r (lower pkc)).toStr == k))).length + 1
          = t.rows.length
      omega
    · intro r hr
      have hmf := List.mem_filter.mp hr
      have : ((cellAt (t.cols.map normCol) r (lower pkc)).toStr == k) = false := by
        have := hmf.2
        cases hb : ((cellAt (t.cols.map normCol) r (lower pkc)).toStr == k)
        · rfl
        · rw [hb] at this; exact absurd this (by simp)
      exact beq_eq_false_iff_ne.mp this
  · intro hall
    have hfil : t.rows.filter
        (fun r => !((cellAt (t.cols.map normCol) r (lower pkc)).toStr == k)) = t.rows := by
      apply List.filter_eq_self.mpr
      intro a ha
      have : ((cellAt (t.cols.map normCol) a (lower pkc)).toStr == k) = false :=
        beq_eq_false_iff_ne.mpr (hall a ha)
      rw [this]
      rfl
    rw [hdel, if_neg (by rw [hfil]; exact Nat.lt_irrefl _)]

/-- Witness for C6: deleting admin 1 from a two-row table succeeds and leaves
one row, while deleting absent admin 3 reports not-found with no write. -/
theorem delete_present_and_absent_w :
    ((delete_record (.parsed ⟨["admin_id"], [[Cell.str "1"], [Cell.str "2"]]⟩)
        (some "admin_id") "1").1 = true ∧
      ∃ w, (delete_record (.parsed ⟨["admin_id"], [[Cell.str "1"], [Cell.str "2"]]⟩)
          (some "admin_id") "1").2 = some w ∧
        w.rows.length + 1 = ([[Cell.str "1"], [Cell.str "2"]] : List (List Cell)).length ∧
        ∀ r ∈ w.rows,
          (cellAt (["admin_id"].map normCol) r (lower "admin_id")).toStr ≠ "1") ∧
    delete_record (.parsed ⟨["admin_id"], [[Cell.str "1"], [Cell.str "2"]]⟩)
      (some "admin_id") "3" = (false, none) := by
  constructor
  · exact (delete_present_and_absent ⟨["admin_id"], [[Cell.str "1"], [Cell.str "2"]]⟩
      "admin_id" "1" (by decide) (by decide)).1 (by decide)
  · exact (delete_present_and_absent ⟨["admin_id"], [[Cell.str "1"], [Cell.str "2"]]⟩
      "admin_id" "3" (by decide) (by decide)).2 (by decide)

/-- C7 amended: the Add write path (update_table) coerces every cell under a
date-like column name, leaving only date values or null markers there, with
unparsable strings becoming null; the Update write path (the Save Changes
branch of display_data_editor) performs no such coercion and persists the
edited rows verbatim. -/
theorem date_coercion_add_only :
    (∀ (fs : FileState) (rec : List (String × Cell)) (row : List Cell) (j : Nat),
      row ∈ (update_table fs rec).written.rows →
      isDateCol ((update_table fs rec).written.cols.getD j "") = true →
      j < (update_table fs rec).written.cols.length →
      Cell.isCoerced (row.getD j Cell.nan) = true) ∧
    (∀ (df edited : Table) (pkCol : String),
      edited ≠ df →
      (edited.cols.map normCol).contains pkCol = true →
      ((getCol ⟨edited.cols.map normCol, edited.rows⟩ pkCol).any
          (fun c => c == Cell.nan)
        || ((getCol ⟨edited.cols.map normCol, edited.rows⟩ pkCol).map Cell.toStr).any
          (fun s => s == "" || lower s == "nan" || lower s == "nat")) = false →
      hasDup ((getCol ⟨edited.cols.map normCol, edited.rows⟩ pkCol).map Cell.toStr)
          = false →
      save_changes df edited (some pkCol)
        = (.saved, some ⟨edited.cols.map normCol, edited.rows⟩)) := by
  constructor
  · intro fs rec row j hmem hdate hj
    obtain ⟨pre, hpre⟩ := update_table_rows_shape fs rec
    rw [hpre] at hmem
    obtain ⟨r0, _, hr0⟩ := List.mem_map.mp hmem
    rw [← hr0]
    exact coerceRow_getD _ r0 j hj hdate
  · intro df edited pkCol hne hcol hkeysOk hdup
    show (if edited = df then ((SaveSignal.noChanges : SaveSignal), (none : Option Table))
      else
        if (edited.cols.map normCol).contains pkCol = true then
          if ((getCol ⟨edited.cols.map normCol, edited.rows⟩ pkCol).any
                (fun c => c == Cell.nan)
              || ((getCol ⟨edited.cols.map normCol, edited.rows⟩ pkCol).map Cell.toStr).any
                (fun s => s == "" || lower s == "nan" || lower s == "nat")) = true then
            (.emptyKeyError, none)
          else if hasDup ((getCol ⟨edited.cols.map normCol, edited.rows⟩ pkCol).map Cell.toStr)
              = true then
            (.duplicateKeyError, none)
          else (.saved, some ⟨edited.cols.map normCol, edited.rows⟩)
        else (.pkColumnMissing, none))
      = (.saved, some ⟨edited.cols.map normCol, edited.rows⟩)
    rw [if_neg hne, hcol, if_pos rfl, hkeysOk]
    simp only [Bool.false_eq_true, if_false]
    rw [hdup]
    simp only [Bool.false_eq_true, if_false]

/-- Witness for C7 amended: a junk dob value becomes a null marker on the Add
path, while the Save Changes path writes the junk string through unchanged. -/
theorem date_coercion_add_only_w :
    Cell.isCoerced (([Cell.str "S1", Cell.nan] : List Cell).getD 1 Cell.nan) = true ∧
    save_changes ⟨["student_id", "dob"], [[Cell.str "S1", Cell.str "x"]]⟩
        ⟨["student_id", "dob"], [[Cell.str "S1", Cell.str "notadate"]]⟩ (some "student_id")
      = (.saved, some ⟨["student_id", "dob"].map normCol,
          [[Cell.str "S1", Cell.str "notadate"]]⟩) := by
  constructor
  · exact date_coercion_add_only.1 .missing
      [("student_id", Cell.str "S1"), ("dob", Cell.str "junk")]
      [Cell.str "S1", Cell.nan] 1 (by decide) (by decide) (by decide)
  · exact date_coercion_add_only.2 ⟨["student_id", "dob"], [[Cell.str "S1", Cell.str "x"]]⟩
      ⟨["student_id", "dob"], [[Cell.str "S1", Cell.str "notadate"]]⟩ "student_id"
      (by decide) (by decide) (by decide) (by decide)

end ExcelApp
